import Mathlib

/-!
Shallow embedding of `src/ringbuffer.c` (jmkeyes/ringbuffer).

Modelling conventions:
* `unsigned long` values are `Nat`; where C overflow/wraparound matters the
  arithmetic is performed explicitly modulo `2 ^ 64`.
* `long` return values are `Int`; the implicit conversion of the
  `unsigned long bytes` local to the `long` return type in the descriptor
  functions is modelled by `longOfUlong`.
* Caller memory (the `void *ptr` arguments) is a total function `Nat → Nat`
  giving the byte at each index; a C `NULL` pointer is `Option.none`.
* `memcpy(dst + dstOff, src + srcOff, n)` becomes the functional update
  `memcpyIn dst dstOff src srcOff n`.
* Fallible functions return `Except RBErr _`; returning `.error e` models the
  C `return -1` with the corresponding errno (the transport-error path of the
  descriptor functions returns `-1` without setting errno; it is modelled by
  `.etransport`).
* The `writev`/`readv` system calls are external: they are modelled by an
  oracle `io : Nat → Int` mapping the clamped request to the value the system
  call returned, together with a flag `wouldBlock` stating whether `errno` is
  `EAGAIN`/`EWOULDBLOCK` at the point of the check.
* The `NULL`-buffer checks (`rb == NULL`, errno `EINVAL`) are not modelled:
  the embedding's `Ringbuffer` is always a valid (non-null) structure.
-/

/-- Error kinds of the C code: `EINVAL`, `ENOMEM`, and the transport-error
`return -1` of the descriptor functions. -/
inductive RBErr where
  | einval : RBErr
  | enomem : RBErr
  | etransport : RBErr
deriving DecidableEq, Repr

/-- `struct ringbuffer` from `ringbuffer.h`: size, the two offsets, and the
storage area (a byte-valued function on indices). -/
structure Ringbuffer where
  size : Nat
  read_offset : Nat
  write_offset : Nat
  storage : Nat → Nat

/-- `memcpy(dst + dstOff, src + srcOff, n)` as a functional update: indices in
`[dstOff, dstOff + n)` now read from `src`, all others are unchanged. -/
def memcpyIn (dst : Nat → Nat) (dstOff : Nat) (src : Nat → Nat) (srcOff n : Nat) : Nat → Nat :=
  fun i => if dstOff ≤ i ∧ i < dstOff + n then src (srcOff + (i - dstOff)) else dst i

/-- The bit-smearing loop of `next_power_of_two` (ringbuffer.c lines 13-18):
OR the value with itself shifted right by 1, 2, 4, 8, 16 and 32 bits. -/
def smear (s0 : Nat) : Nat :=
  let s1 := s0 ||| s0 >>> 1
  let s2 := s1 ||| s1 >>> 2
  let s3 := s2 ||| s2 >>> 4
  let s4 := s3 ||| s3 >>> 8
  let s5 := s4 ||| s4 >>> 16
  s5 ||| s5 >>> 32

/-- `next_power_of_two` (ringbuffer.c lines 11-22): decrement, smear the bits
right, increment.  `size` is `unsigned long`, so both the decrement and the
increment wrap modulo `2 ^ 64`. -/
def next_power_of_two (size : Nat) : Nat :=
  (smear ((size + (2 ^ 64 - 1)) % 2 ^ 64) + 1) % 2 ^ 64

/-- `ringbuffer_create` (lines 34-50): the capacity is the requested size
rounded by `next_power_of_two`.  The C code does not initialise the offsets or
the storage, so the model takes their (arbitrary) initial contents as
parameters `r`, `w`, `st`. -/
def ringbuffer_create (size : Nat) (r w : Nat) (st : Nat → Nat) : Ringbuffer :=
  { size := next_power_of_two size, read_offset := r, write_offset := w, storage := st }

/-- `ringbuffer_flush` (lines 81-93): `memset` the storage to `fill` and reset
both offsets to zero. -/
def ringbuffer_flush (rb : Ringbuffer) (fill : Nat) : Ringbuffer :=
  { rb with
    storage := fun i => if i < rb.size then fill else rb.storage i
    read_offset := 0
    write_offset := 0 }

/-- `ringbuffer_fill_count` (lines 103-118): branch-free-on-sign fill level. -/
def ringbuffer_fill_count (rb : Ringbuffer) : Nat :=
  if rb.write_offset ≥ rb.read_offset then rb.write_offset - rb.read_offset
  else rb.write_offset + rb.size - rb.read_offset

/-- `ringbuffer_free_count` (lines 129-136). -/
def ringbuffer_free_count (rb : Ringbuffer) : Nat :=
  rb.size - ringbuffer_fill_count rb

/-- `ringbuffer_write_memory` (lines 150-185): copy out of the ring buffer into
caller memory (the spec's ReadInto).  Returns the updated ring buffer, the
updated caller memory (`none` when `ptr` was `NULL`), and the transfer count. -/
def ringbuffer_write_memory (rb : Ringbuffer) (ptr : Option (Nat → Nat)) (amount : Nat) :
    Except RBErr (Ringbuffer × Option (Nat → Nat) × Nat) :=
  if amount > rb.size then
    .error .enomem
  else
    let amount := if amount > ringbuffer_fill_count rb then ringbuffer_fill_count rb else amount
    let out :=
      match ptr with
      | none => none
      | some buffer =>
        let idx := rb.read_offset
        let e := (rb.read_offset + amount) &&& (rb.size - 1)
        let m := rb.size
        some (if idx < e then
                memcpyIn buffer 0 rb.storage idx (e - idx)
              else if idx > e then
                memcpyIn (memcpyIn buffer 0 rb.storage idx (m - idx)) (m - idx) rb.storage 0 e
              else buffer)
    .ok ({ rb with read_offset := (rb.read_offset + amount) &&& (rb.size - 1) }, out, amount)

/-- `ringbuffer_read_memory` (lines 200-235): copy from caller memory into the
ring buffer (the spec's WriteFrom).  Returns the updated ring buffer and the
transfer count. -/
def ringbuffer_read_memory (rb : Ringbuffer) (ptr : Option (Nat → Nat)) (amount : Nat) :
    Except RBErr (Ringbuffer × Nat) :=
  if amount > rb.size then
    .error .enomem
  else
    let amount := if amount > ringbuffer_free_count rb then ringbuffer_free_count rb else amount
    let rb' :=
      match ptr with
      | none => rb
      | some buffer =>
        let idx := rb.write_offset
        let e := (rb.write_offset + amount) &&& (rb.size - 1)
        let m := rb.size
        if idx < e then
          { rb with storage := memcpyIn rb.storage idx buffer 0 (e - idx) }
        else if idx > e then
          { rb with storage := memcpyIn (memcpyIn rb.storage idx buffer 0 (m - idx)) 0 buffer (m - idx) e }
        else rb
    .ok ({ rb' with write_offset := (rb.write_offset + amount) &&& (rb.size - 1) }, amount)

/-- The clamp of `ringbuffer_write_fd` (lines 262-264): the drain amount is
clamped against `ringbuffer_free_count`. -/
def write_fd_clamped (rb : Ringbuffer) (amount : Nat) : Nat :=
  if amount > ringbuffer_free_count rb then ringbuffer_free_count rb else amount

/-- The clamp of `ringbuffer_read_fd` (lines 322-324): the fill amount is
clamped against `ringbuffer_fill_count`. -/
def read_fd_clamped (rb : Ringbuffer) (amount : Nat) : Nat :=
  if amount > ringbuffer_fill_count rb then ringbuffer_fill_count rb else amount

/-- Conversion of a C `ssize_t`/`long` value to the `unsigned long bytes`
local of the descriptor functions. -/
def ulongOfInt (i : Int) : Nat := (i % (2 : Int) ^ 64).toNat

/-- Implicit conversion of the `unsigned long bytes` local back to the `long`
return type of the descriptor functions. -/
def longOfUlong (n : Nat) : Int :=
  if n < 2 ^ 63 then (n : Nat) else (n : Int) - 2 ^ 64

/-- `ringbuffer_write_fd` (lines 247-295): drain to a descriptor.  `io` gives
the `writev` return value for the clamped request; `wouldBlock` states whether
`errno` is `EAGAIN`/`EWOULDBLOCK` when the result is checked.  Note that
`bytes` is `unsigned long` in the C code, so the `bytes <= 0` test only
catches `bytes == 0`; a `-1` from `writev` lands in the success branch. -/
def ringbuffer_write_fd (rb : Ringbuffer) (amount : Nat) (io : Nat → Int) (wouldBlock : Bool) :
    Except RBErr (Ringbuffer × Int) :=
  if amount > rb.size then
    .error .enomem
  else
    let amount := write_fd_clamped rb amount
    let bytes : Nat := ulongOfInt (io amount)
    if bytes = 0 then
      if wouldBlock then .ok (rb, longOfUlong bytes) else .error .etransport
    else
      .ok ({ rb with read_offset := (rb.read_offset + bytes) &&& (rb.size - 1) }, longOfUlong bytes)

/-- `ringbuffer_read_fd` (lines 307-355): fill from a descriptor, symmetric to
`ringbuffer_write_fd` but advancing `write_offset` and clamping against
`ringbuffer_fill_count`. -/
def ringbuffer_read_fd (rb : Ringbuffer) (amount : Nat) (io : Nat → Int) (wouldBlock : Bool) :
    Except RBErr (Ringbuffer × Int) :=
  if amount > rb.size then
    .error .enomem
  else
    let amount := read_fd_clamped rb amount
    let bytes : Nat := ulongOfInt (io amount)
    if bytes = 0 then
      if wouldBlock then .ok (rb, longOfUlong bytes) else .error .etransport
    else
      .ok ({ rb with write_offset := (rb.write_offset + bytes) &&& (rb.size - 1) }, longOfUlong bytes)

/-- Both offsets are inside the storage region. -/
def offsets_in_range (rb : Ringbuffer) : Prop :=
  rb.read_offset < rb.size ∧ rb.write_offset < rb.size

/-! ## Arithmetic helpers -/

theorem land_mask (k x : Nat) : x &&& (2 ^ k - 1) = x % 2 ^ k :=
  Nat.and_pow_two_sub_one_eq_mod x k

theorem land_mask_lt (k x : Nat) : x &&& (2 ^ k - 1) < 2 ^ k := by
  rw [land_mask]
  exact Nat.mod_lt _ (Nat.two_pow_pos k)

theorem clamp_eq_min (a b : Nat) : (if a > b then b else a) = min a b := by
  split <;> omega

theorem mod_cases2 (a n : Nat) (h : a < 2 * n) :
    (a < n ∧ a % n = a) ∨ (n ≤ a ∧ a % n = a - n) := by
  rcases Nat.lt_or_ge a n with hlt | hge
  · exact Or.inl ⟨hlt, Nat.mod_eq_of_lt hlt⟩
  · refine Or.inr ⟨hge, ?_⟩
    rw [Nat.mod_eq_sub_mod hge, Nat.mod_eq_of_lt (by omega)]

/-! ## Fill and free counts -/

theorem fill_count_lt (rb : Ringbuffer) (hr : rb.read_offset < rb.size)
    (hw : rb.write_offset < rb.size) : ringbuffer_fill_count rb < rb.size := by
  unfold ringbuffer_fill_count
  split <;> omega

theorem fill_count_cases (rb : Ringbuffer) :
    (rb.read_offset ≤ rb.write_offset ∧
      ringbuffer_fill_count rb = rb.write_offset - rb.read_offset) ∨
    (rb.write_offset < rb.read_offset ∧
      ringbuffer_fill_count rb = rb.write_offset + rb.size - rb.read_offset) := by
  unfold ringbuffer_fill_count
  split
  · exact Or.inl ⟨by omega, rfl⟩
  · exact Or.inr ⟨by omega, rfl⟩

/-! ## Characterization of the memory-transfer operations

`read_memory_ok` describes a successful `ringbuffer_read_memory` (the spec's
WriteFrom) on a valid buffer: the transfer count is the request clamped to the
free count, `write_offset` advances modulo the size, the transferred bytes
land at `write_offset + j (mod size)`, and the bytes of the fill region
(offset `j < fill count` past `read_offset`) are untouched.

`write_memory_ok` describes a successful `ringbuffer_write_memory` (the
spec's ReadInto) with a non-null destination: the count is clamped to the
fill count, `read_offset` advances modulo the size, the ring storage is
untouched, and byte `j` of the output is the ring byte at
`read_offset + j (mod size)`. -/

theorem read_memory_ok (k : Nat) (rb : Ringbuffer) (buffer : Nat → Nat) (amount : Nat)
    (hs : rb.size = 2 ^ k) (hr : rb.read_offset < rb.size) (hw : rb.write_offset < rb.size)
    (ha : amount ≤ rb.size) :
    ∃ rb', ringbuffer_read_memory rb (some buffer) amount =
        .ok (rb', min amount (ringbuffer_free_count rb)) ∧
      rb'.size = rb.size ∧
      rb'.read_offset = rb.read_offset ∧
      rb'.write_offset = (rb.write_offset + min amount (ringbuffer_free_count rb)) % rb.size ∧
      (∀ j, j < min amount (ringbuffer_free_count rb) →
         min amount (ringbuffer_free_count rb) < rb.size →
         rb'.storage ((rb.write_offset + j) % rb.size) = buffer j) ∧
      (∀ j, j < ringbuffer_fill_count rb →
         rb'.storage ((rb.read_offset + j) % rb.size) = rb.storage ((rb.read_offset + j) % rb.size)) := by
  have h0 : 0 < rb.size := hs ▸ Nat.two_pow_pos k
  have hmask : ∀ x, x &&& (rb.size - 1) = x % rb.size := by
    intro x; rw [hs]; exact land_mask k x
  have hfil : ringbuffer_fill_count rb < rb.size := fill_count_lt rb hr hw
  have hfree : ringbuffer_free_count rb = rb.size - ringbuffer_fill_count rb := rfl
  have hfc := fill_count_cases rb
  have haa : min amount (ringbuffer_free_count rb) ≤ ringbuffer_free_count rb :=
    Nat.min_le_right _ _
  unfold ringbuffer_read_memory
  rw [if_neg (by omega)]
  dsimp only
  rw [clamp_eq_min]
  simp only [hmask]
  set fc := ringbuffer_fill_count rb with hfcdef
  set a := amount ⊓ ringbuffer_free_count rb with hadef
  set w := rb.write_offset with hwdef
  set r := rb.read_offset with hrdef
  set s := rb.size with hsdef
  rcases mod_cases2 (w + a) s (by omega) with ⟨hlt, hE⟩ | ⟨hge, hE⟩ <;> rw [hE]
  · -- no wrap: w + a < s
    rcases Nat.eq_zero_or_pos a with ha0 | hapos
    · rw [ha0]
      rw [if_neg (by omega), if_neg (by omega)]
      refine ⟨_, rfl, rfl, rfl, rfl, ?_, ?_⟩
      · intro j hj _
        exact absurd hj (by omega)
      · intro j _
        rfl
    · rw [if_pos (by omega)]
      refine ⟨_, rfl, rfl, rfl, rfl, ?_, ?_⟩
      · intro j hj _
        rcases mod_cases2 (w + j) s (by omega) with ⟨h1, hp⟩ | ⟨h1, hp⟩ <;> rw [hp]
        · dsimp only [memcpyIn]
          rw [if_pos (by omega)]
          congr 1
          omega
        · omega
      · intro j hj
        rcases mod_cases2 (r + j) s (by omega) with ⟨h1, hp⟩ | ⟨h1, hp⟩ <;> rw [hp] <;>
          · dsimp only [memcpyIn]
            rw [if_neg (by omega)]
  · -- wrap: s ≤ w + a
    rcases Nat.lt_or_ge a s with has | has
    · -- a < s : genuine wrap, the copy is issued in two segments
      rw [if_neg (by omega), if_pos (by omega)]
      refine ⟨_, rfl, rfl, rfl, rfl, ?_, ?_⟩
      · intro j hj _
        rcases mod_cases2 (w + j) s (by omega) with ⟨h1, hp⟩ | ⟨h1, hp⟩ <;> rw [hp] <;>
            dsimp only [memcpyIn]
        · rw [if_neg (by omega), if_pos (by omega)]
          congr 1
          omega
        · rw [if_pos (by omega)]
          congr 1
          omega
      · intro j hj
        rcases mod_cases2 (r + j) s (by omega) with ⟨h1, hp⟩ | ⟨h1, hp⟩ <;> rw [hp] <;>
          · dsimp only [memcpyIn]
            rw [if_neg (by omega), if_neg (by omega)]
    · -- a = s : the buffer was empty and the full capacity was requested;
      -- idx == end, so the C code copies nothing at all
      have has' : a = s := by omega
      rw [has']
      rw [if_neg (by omega), if_neg (by omega)]
      refine ⟨_, rfl, rfl, rfl, rfl, ?_, ?_⟩
      · intro j hj hlt2
        exact absurd hlt2 (by omega)
      · intro j hj
        exact absurd hj (by omega)

theorem write_memory_ok (k : Nat) (rb : Ringbuffer) (buffer : Nat → Nat) (amount : Nat)
    (hs : rb.size = 2 ^ k) (hr : rb.read_offset < rb.size) (hw : rb.write_offset < rb.size)
    (ha : amount ≤ rb.size) :
    ∃ rb' out, ringbuffer_write_memory rb (some buffer) amount =
        .ok (rb', some out, min amount (ringbuffer_fill_count rb)) ∧
      rb'.size = rb.size ∧
      rb'.write_offset = rb.write_offset ∧
      rb'.storage = rb.storage ∧
      rb'.read_offset = (rb.read_offset + min amount (ringbuffer_fill_count rb)) % rb.size ∧
      (∀ j, j < min amount (ringbuffer_fill_count rb) →
         out j = rb.storage ((rb.read_offset + j) % rb.size)) := by
  have h0 : 0 < rb.size := hs ▸ Nat.two_pow_pos k
  have hmask : ∀ x, x &&& (rb.size - 1) = x % rb.size := by
    intro x; rw [hs]; exact land_mask k x
  have hfil : ringbuffer_fill_count rb < rb.size := fill_count_lt rb hr hw
  have haa : min amount (ringbuffer_fill_count rb) ≤ ringbuffer_fill_count rb :=
    Nat.min_le_right _ _
  unfold ringbuffer_write_memory
  rw [if_neg (by omega)]
  dsimp only
  rw [clamp_eq_min]
  simp only [hmask]
  set fc := ringbuffer_fill_count rb with hfcdef
  set a := amount ⊓ fc with hadef
  set w := rb.write_offset with hwdef
  set r := rb.read_offset with hrdef
  set s := rb.size with hsdef
  rcases mod_cases2 (r + a) s (by omega) with ⟨hlt, hE⟩ | ⟨hge, hE⟩ <;> rw [hE]
  · -- no wrap: r + a < s
    rcases Nat.eq_zero_or_pos a with ha0 | hapos
    · rw [ha0]
      rw [if_neg (by omega), if_neg (by omega)]
      refine ⟨_, _, rfl, rfl, rfl, rfl, rfl, ?_⟩
      intro j hj
      exact absurd hj (by omega)
    · rw [if_pos (by omega)]
      refine ⟨_, _, rfl, rfl, rfl, rfl, rfl, ?_⟩
      intro j hj
      rcases mod_cases2 (r + j) s (by omega) with ⟨h1, hp⟩ | ⟨h1, hp⟩ <;> rw [hp]
      · dsimp only [memcpyIn]
        rw [if_pos (by omega), Nat.sub_zero]
      · omega
  · -- wrap: s ≤ r + a (here a ≤ fc < s, so the two-segment copy is issued)
    rw [if_neg (by omega), if_pos (by omega)]
    refine ⟨_, _, rfl, rfl, rfl, rfl, rfl, ?_⟩
    intro j hj
    rcases mod_cases2 (r + j) s (by omega) with ⟨h1, hp⟩ | ⟨h1, hp⟩ <;> rw [hp] <;>
        dsimp only [memcpyIn]
    · rw [if_neg (by omega), if_pos (by omega), Nat.sub_zero]
    · rw [if_pos (by omega)]
      congr 1
      omega

theorem write_memory_none_ok (rb : Ringbuffer) (amount : Nat) (h : amount ≤ rb.size) :
    ringbuffer_write_memory rb none amount =
      .ok ({ rb with read_offset :=
               (rb.read_offset + min amount (ringbuffer_fill_count rb)) &&& (rb.size - 1) },
           none, min amount (ringbuffer_fill_count rb)) := by
  unfold ringbuffer_write_memory
  rw [if_neg (by omega)]
  dsimp only
  rw [clamp_eq_min]

/-! ## Correctness of the bit smear -/

theorem testBit_or_shift (x a p : Nat) :
    (x ||| x >>> a).testBit p = (x.testBit p || x.testBit (p + a)) := by
  simp [Nat.testBit_or, Nat.testBit_shiftRight, Nat.add_comm]

theorem smear_step {m x : Nat} (a b : Nat) (hb : b = 2 * a)
    (hx : ∀ p, x.testBit p = true ↔ ∃ i, i < a ∧ m.testBit (p + i) = true) :
    ∀ p, (x ||| x >>> a).testBit p = true ↔ ∃ i, i < b ∧ m.testBit (p + i) = true := by
  intro p
  rw [testBit_or_shift, Bool.or_eq_true, hx p, hx (p + a)]
  constructor
  · rintro (⟨i, hi, hbit⟩ | ⟨i, hi, hbit⟩)
    · exact ⟨i, by omega, hbit⟩
    · refine ⟨a + i, by omega, ?_⟩
      rwa [← Nat.add_assoc]
  · rintro ⟨i, hi, hbit⟩
    rcases Nat.lt_or_ge i a with h' | h'
    · exact Or.inl ⟨i, h', hbit⟩
    · refine Or.inr ⟨i - a, by omega, ?_⟩
      have harg : p + a + (i - a) = p + i := by omega
      rwa [harg]

theorem testBit_size_pred (m : Nat) (hm : 0 < m) : m.testBit (Nat.size m - 1) = true := by
  have hpos : 0 < Nat.size m := Nat.size_pos.mpr hm
  have h1 : 2 ^ (Nat.size m - 1) ≤ m := Nat.lt_size.mp (by omega)
  have h2 : m < 2 ^ Nat.size m := Nat.lt_size_self m
  have hsz : Nat.size m - 1 + 1 = Nat.size m := by omega
  have hppos : 0 < 2 ^ (Nat.size m - 1) := Nat.two_pow_pos _
  have hq1 : 1 ≤ m / 2 ^ (Nat.size m - 1) := by
    rw [Nat.le_div_iff_mul_le hppos]
    omega
  have hq2 : m / 2 ^ (Nat.size m - 1) < 2 := by
    rw [Nat.div_lt_iff_lt_mul hppos]
    calc m < 2 ^ Nat.size m := h2
    _ = 2 ^ (Nat.size m - 1 + 1) := by rw [hsz]
    _ = 2 ^ (Nat.size m - 1) * 2 := by rw [Nat.pow_succ]
    _ = 2 * 2 ^ (Nat.size m - 1) := by ring
  have hq : m / 2 ^ (Nat.size m - 1) = 1 := by omega
  rw [Nat.testBit_to_div_mod, hq]
  rfl

theorem smear_eq (m : Nat) (hm : m < 2 ^ 64) : smear m = 2 ^ Nat.size m - 1 := by
  have hbase : ∀ p, m.testBit p = true ↔ ∃ i, i < 1 ∧ m.testBit (p + i) = true := by
    intro p
    constructor
    · intro h
      exact ⟨0, Nat.one_pos, by simpa using h⟩
    · rintro ⟨i, hi, hb⟩
      have hi0 : i = 0 := by omega
      subst hi0
      simpa using hb
  have h1 := smear_step 1 2 rfl hbase
  have h2 := smear_step 2 4 rfl h1
  have h3 := smear_step 4 8 rfl h2
  have h4 := smear_step 8 16 rfl h3
  have h5 := smear_step 16 32 rfl h4
  have h6 := smear_step 32 64 rfl h5
  have hsz64 : Nat.size m ≤ 64 := Nat.size_le.mpr hm
  unfold smear
  dsimp only
  apply Nat.eq_of_testBit_eq
  intro i
  rw [Nat.testBit_two_pow_sub_one]
  by_cases hlt : i < Nat.size m
  · rw [decide_eq_true hlt]
    refine (h6 i).mpr ⟨Nat.size m - 1 - i, by omega, ?_⟩
    have harg : i + (Nat.size m - 1 - i) = Nat.size m - 1 := by omega
    rw [harg]
    refine testBit_size_pred m ?_
    by_contra hm0
    have hmz : m = 0 := by omega
    subst hmz
    simp [Nat.size_zero] at hlt
  · rw [decide_eq_false hlt]
    refine Bool.eq_false_iff.mpr ?_
    intro hbit
    obtain ⟨j, hj, hb⟩ := (h6 i).mp hbit
    have hge : Nat.size m ≤ i + j := by omega
    have hfalse : m.testBit (i + j) = false :=
      Nat.testBit_lt_two_pow
        (lt_of_lt_of_le (Nat.lt_size_self m) (Nat.pow_le_pow_right (by omega) hge))
    rw [hfalse] at hb
    cases hb

theorem next_power_of_two_eq (s : Nat) (h1 : 0 < s) (h2 : s ≤ 2 ^ 63) :
    next_power_of_two s = 2 ^ Nat.size (s - 1) := by
  have hs0 : (s + (2 ^ 64 - 1)) % 2 ^ 64 = s - 1 := by
    have harg : s + (2 ^ 64 - 1) = (s - 1) + 1 * 2 ^ 64 := by omega
    rw [harg, Nat.add_mul_mod_self_right, Nat.mod_eq_of_lt (by omega)]
  unfold next_power_of_two
  rw [hs0, smear_eq (s - 1) (by omega)]
  have hsize : Nat.size (s - 1) ≤ 63 := Nat.size_le.mpr (by omega)
  have h2p : 2 ^ Nat.size (s - 1) ≤ 2 ^ 63 := Nat.pow_le_pow_right (by omega) hsize
  have hpos := Nat.two_pow_pos (Nat.size (s - 1))
  have hcancel : 2 ^ Nat.size (s - 1) - 1 + 1 = 2 ^ Nat.size (s - 1) := by omega
  rw [hcancel, Nat.mod_eq_of_lt (by omega)]

/-! ## Claims -/

/-- C1 (amended): round-trip for `N` strictly less than the capacity.
Starting from an empty buffer (`write_offset = read_offset`) of power-of-two
capacity, a WriteFrom (`ringbuffer_read_memory`) of `N < capacity` bytes
followed by a ReadInto (`ringbuffer_write_memory`) of `N` bytes returns
exactly the `N` bytes written, in order, including when the transfers wrap
across the end of storage.  (At `N = capacity` the claim fails: see the
counterexample, where the write reports success but copies nothing and the
read-back returns 0 bytes.) -/
theorem C1_round_trip (k : Nat) (rb : Ringbuffer) (src dst : Nat → Nat) (amount : Nat)
    (hs : rb.size = 2 ^ k) (hr : rb.read_offset < rb.size)
    (hempty : rb.write_offset = rb.read_offset) (hN : amount < rb.size) :
    ∃ rb1 rb2 out,
      ringbuffer_read_memory rb (some src) amount = .ok (rb1, amount) ∧
      ringbuffer_write_memory rb1 (some dst) amount = .ok (rb2, some out, amount) ∧
      ∀ j, j < amount → out j = src j := by
  have h0 : 0 < rb.size := hs ▸ Nat.two_pow_pos k
  have hw : rb.write_offset < rb.size := by omega
  have hf0 : ringbuffer_fill_count rb = 0 := by
    unfold ringbuffer_fill_count
    split <;> omega
  have hfree : ringbuffer_free_count rb = rb.size := by
    unfold ringbuffer_free_count
    omega
  have hmin1 : min amount (ringbuffer_free_count rb) = amount := by
    rw [hfree]; exact Nat.min_eq_left (by omega)
  obtain ⟨rb1, heq1, hsz1, hro1, hwo1, hst1, _⟩ :=
    read_memory_ok k rb src amount hs hr hw (by omega)
  rw [hmin1] at heq1 hwo1 hst1
  have hro1' : rb1.read_offset < rb1.size := by rw [hro1, hsz1]; omega
  have hwo1' : rb1.write_offset < rb1.size := by
    rw [hwo1, hsz1]; exact Nat.mod_lt _ h0
  have hf1 : ringbuffer_fill_count rb1 = amount := by
    have hc := fill_count_cases rb1
    rcases mod_cases2 (rb.write_offset + amount) rb.size (by omega) with ⟨h1, hp⟩ | ⟨h1, hp⟩ <;>
      rw [hp] at hwo1 <;> rcases hc with ⟨h2, hf⟩ | ⟨h2, hf⟩ <;> rw [hf] <;>
        rw [hro1, hwo1, hsz1] at * <;> omega
  obtain ⟨rb2, out, heq2, _, _, _, _, hout⟩ :=
    write_memory_ok k rb1 dst amount (by rw [hsz1]; exact hs) hro1' hwo1' (by omega)
  have hmin2 : min amount (ringbuffer_fill_count rb1) = amount := by
    rw [hf1]; exact Nat.min_eq_left (by omega)
  rw [hmin2] at heq2 hout
  refine ⟨rb1, rb2, out, heq1, heq2, ?_⟩
  intro j hj
  rw [hout j hj, hro1, hsz1]
  have hbyte := hst1 j (by omega) (by omega)
  rw [hempty] at hbyte
  exact hbyte

/-- C1 witness: capacity 4, both offsets at 3, round-trip of 3 bytes — both
transfers wrap across the end of storage. -/
theorem C1_round_trip_witness :
    ((⟨4, 3, 3, fun _ => 0⟩ : Ringbuffer).size = 2 ^ 2 ∧
     (⟨4, 3, 3, fun _ => 0⟩ : Ringbuffer).read_offset < (⟨4, 3, 3, fun _ => 0⟩ : Ringbuffer).size ∧
     (⟨4, 3, 3, fun _ => 0⟩ : Ringbuffer).write_offset = (⟨4, 3, 3, fun _ => 0⟩ : Ringbuffer).read_offset ∧
     3 < (⟨4, 3, 3, fun _ => 0⟩ : Ringbuffer).size) ∧
    ∃ rb1 rb2 out,
      ringbuffer_read_memory ⟨4, 3, 3, fun _ => 0⟩ (some fun j => j + 10) 3 = .ok (rb1, 3) ∧
      ringbuffer_write_memory rb1 (some fun _ => 0) 3 = .ok (rb2, some out, 3) ∧
      ∀ j, j < 3 → out j = (fun j => j + 10) j :=
  ⟨⟨by decide, by decide, by decide, by decide⟩,
    C1_round_trip 2 ⟨4, 3, 3, fun _ => 0⟩ (fun j => j + 10) (fun _ => 0) 3
      (by decide) (by decide) (by decide) (by decide)⟩

/-- C1 counterexample: capacity 1, `N = capacity = 1`.  The WriteFrom reports
1 byte transferred, but the subsequent ReadInto of 1 byte transfers 0 bytes —
the round-trip does not return the byte that was written.  (At the full
capacity the masked offset wraps to its starting point, `idx == end`, and the
copy loop moves nothing.) -/
theorem C1_counterexample :
    ((ringbuffer_read_memory ⟨1, 0, 0, fun _ => 0⟩ (some fun _ => 42) 1).toOption.map (·.2)) =
        some 1 ∧
    ((ringbuffer_read_memory ⟨1, 0, 0, fun _ => 0⟩ (some fun _ => 42) 1).toOption.bind fun p =>
        (ringbuffer_write_memory p.1 (some fun _ => 0) 1).toOption.map fun q => q.2.2) ≠
      some 1 := by
  exact ⟨by decide, by decide⟩

/-- C2 (amended): `Create(1)` yields capacity 1, but after a WriteFrom of one
byte the write offset is masked back to 0, so the buffer looks empty again:
`ringbuffer_free_count` returns 1 (not 0) and a further WriteFrom of one byte
reports 1 byte transferred (not 0).  This is the full/empty ambiguity of the
offset representation at its extreme. -/
theorem C2_full_buffer :
    (ringbuffer_create 1 0 0 (fun _ => 0)).size = 1 ∧
    ((ringbuffer_read_memory (ringbuffer_flush (ringbuffer_create 1 0 0 fun _ => 0) 0)
        (some fun _ => 42) 1).toOption.map (fun p => (ringbuffer_free_count p.1, p.2))) =
      some (1, 1) ∧
    ((ringbuffer_read_memory (ringbuffer_flush (ringbuffer_create 1 0 0 fun _ => 0) 0)
        (some fun _ => 42) 1).toOption.bind
      (fun p => (ringbuffer_read_memory p.1 (some fun _ => 7) 1).toOption.map (·.2))) =
      some 1 := by
  exact ⟨by decide, by decide, by decide⟩

/-- C2 counterexample: after writing 1 byte into the flushed capacity-1
buffer, `ringbuffer_free_count` does not return 0 and a further 1-byte
WriteFrom does not return 0 transferred — contradicting the claimed scenario. -/
theorem C2_counterexample :
    ((ringbuffer_read_memory (ringbuffer_flush (ringbuffer_create 1 0 0 fun _ => 0) 0)
        (some fun _ => 42) 1).toOption.map (fun p => ringbuffer_free_count p.1)) ≠ some 0 ∧
    ((ringbuffer_read_memory (ringbuffer_flush (ringbuffer_create 1 0 0 fun _ => 0) 0)
        (some fun _ => 42) 1).toOption.bind
      (fun p => (ringbuffer_read_memory p.1 (some fun _ => 7) 1).toOption.map (·.2))) ≠
      some 0 := by
  exact ⟨by decide, by decide⟩

/-- C3: for a requested amount within capacity, `ringbuffer_write_fd`
(DrainToDescriptor) clamps the transfer amount to the free count and
`ringbuffer_read_fd` (FillFromDescriptor) clamps it to the fill count —
exactly as the spec describes the source (and flags as the suspected swap). -/
theorem C3_descriptor_clamps (rb : Ringbuffer) (amount : Nat) (h : amount ≤ rb.size) :
    write_fd_clamped rb amount = min amount (ringbuffer_free_count rb) ∧
    read_fd_clamped rb amount = min amount (ringbuffer_fill_count rb) := by
  unfold write_fd_clamped read_fd_clamped
  constructor <;> split <;> omega

/-- C3 witness: capacity 4 with 2 bytes filled; a request of 3 is clamped to
the free count (2) on drain and to the fill count (2) on fill. -/
theorem C3_descriptor_clamps_witness :
    (3 ≤ (⟨4, 1, 3, fun _ => 0⟩ : Ringbuffer).size) ∧
    (write_fd_clamped ⟨4, 1, 3, fun _ => 0⟩ 3 =
        min 3 (ringbuffer_free_count ⟨4, 1, 3, fun _ => 0⟩) ∧
     read_fd_clamped ⟨4, 1, 3, fun _ => 0⟩ 3 =
        min 3 (ringbuffer_fill_count ⟨4, 1, 3, fun _ => 0⟩)) :=
  ⟨by decide, C3_descriptor_clamps ⟨4, 1, 3, fun _ => 0⟩ 3 (by decide)⟩

/-- C4: evaluation of the descriptor operations at the failing input.  On a
buffer of capacity 4 whose advancing offset starts at 2, when the underlying
`writev`/`readv` fails with `-1` and `errno` is `EAGAIN`/`EWOULDBLOCK`, the C
code does not report a zero-byte transfer with unchanged offsets: because the
local `bytes` is `unsigned long`, `-1` becomes `2^64 - 1`, the `bytes <= 0`
check is passed over, the offset is advanced by `(2^64 - 1) mod 4` (from 2 to
1) and the function returns `-1`.  The `EAGAIN` handling is unreachable for
negative results, contradicting the error-classification structure the code
itself sets up. -/
theorem C4_would_block_eval :
    (ringbuffer_write_fd ⟨4, 2, 2, fun _ => 0⟩ 1 (fun _ => -1) true).toOption.map
        (fun p => (p.1.read_offset, p.2)) = some (1, -1) ∧
    (ringbuffer_read_fd ⟨4, 0, 2, fun _ => 0⟩ 1 (fun _ => -1) true).toOption.map
        (fun p => (p.1.write_offset, p.2)) = some (1, -1) := by
  exact ⟨by decide, by decide⟩

/-- C5: requesting a transfer amount strictly greater than the capacity makes
both memory operations fail with the capacity-exceeded error (`ENOMEM`),
regardless of the current fill level (the check precedes the clamp), and no
updated buffer is produced — the buffer state is unchanged. -/
theorem C5_capacity_exceeded (rb : Ringbuffer) (dst src : Option (Nat → Nat)) (amount : Nat)
    (h : amount > rb.size) :
    ringbuffer_write_memory rb dst amount = .error .enomem ∧
    ringbuffer_read_memory rb src amount = .error .enomem := by
  refine ⟨?_, ?_⟩ <;> simp [ringbuffer_write_memory, ringbuffer_read_memory, h]

/-- C5 witness: a request of 5 bytes on a capacity-4 buffer. -/
theorem C5_capacity_exceeded_witness :
    (5 > (⟨4, 1, 3, fun _ => 0⟩ : Ringbuffer).size) ∧
    (ringbuffer_write_memory ⟨4, 1, 3, fun _ => 0⟩ none 5 = .error .enomem ∧
     ringbuffer_read_memory ⟨4, 1, 3, fun _ => 0⟩ none 5 = .error .enomem) :=
  ⟨by decide, C5_capacity_exceeded ⟨4, 1, 3, fun _ => 0⟩ none none 5 (by decide)⟩

/-- C6: when the free count is `k` and a WriteFrom (`ringbuffer_read_memory`)
of `amount` with `k < amount ≤ capacity` is requested, exactly `k` bytes are
accepted, the return value is `k`, and no byte of the fill region (written but
not yet read, at offsets `read_offset + j (mod capacity)` for
`j < fill count`) is overwritten. -/
theorem C6_no_overwrite (k : Nat) (rb : Ringbuffer) (src : Nat → Nat) (amount kk : Nat)
    (hs : rb.size = 2 ^ k) (hr : rb.read_offset < rb.size) (hw : rb.write_offset < rb.size)
    (hfree : ringbuffer_free_count rb = kk) (h1 : kk < amount) (h2 : amount ≤ rb.size) :
    ∃ rb', ringbuffer_read_memory rb (some src) amount = .ok (rb', kk) ∧
      ∀ j, j < ringbuffer_fill_count rb →
        rb'.storage ((rb.read_offset + j) % rb.size) =
          rb.storage ((rb.read_offset + j) % rb.size) := by
  obtain ⟨rb', heq, _, _, _, _, hpr⟩ := read_memory_ok k rb src amount hs hr hw h2
  rw [hfree, Nat.min_eq_right (Nat.le_of_lt h1)] at heq
  exact ⟨rb', heq, hpr⟩

/-- C6 witness: capacity 4, fill 2, free 2; a write of 3 accepts exactly 2
bytes and preserves the 2 unread bytes. -/
theorem C6_no_overwrite_witness :
    ((⟨4, 1, 3, fun _ => 0⟩ : Ringbuffer).size = 2 ^ 2 ∧
     (⟨4, 1, 3, fun _ => 0⟩ : Ringbuffer).read_offset < (⟨4, 1, 3, fun _ => 0⟩ : Ringbuffer).size ∧
     (⟨4, 1, 3, fun _ => 0⟩ : Ringbuffer).write_offset < (⟨4, 1, 3, fun _ => 0⟩ : Ringbuffer).size ∧
     ringbuffer_free_count ⟨4, 1, 3, fun _ => 0⟩ = 2 ∧ 2 < 3 ∧
     3 ≤ (⟨4, 1, 3, fun _ => 0⟩ : Ringbuffer).size) ∧
    ∃ rb', ringbuffer_read_memory ⟨4, 1, 3, fun _ => 0⟩ (some fun j => j + 20) 3 = .ok (rb', 2) ∧
      ∀ j, j < ringbuffer_fill_count ⟨4, 1, 3, fun _ => 0⟩ →
        rb'.storage (((⟨4, 1, 3, fun _ => 0⟩ : Ringbuffer).read_offset + j) %
            (⟨4, 1, 3, fun _ => 0⟩ : Ringbuffer).size) =
          (⟨4, 1, 3, fun _ => 0⟩ : Ringbuffer).storage
            (((⟨4, 1, 3, fun _ => 0⟩ : Ringbuffer).read_offset + j) %
              (⟨4, 1, 3, fun _ => 0⟩ : Ringbuffer).size) :=
  ⟨⟨by decide, by decide, by decide, by decide, by decide, by decide⟩,
    C6_no_overwrite 2 ⟨4, 1, 3, fun _ => 0⟩ (fun j => j + 20) 3 2
      (by decide) (by decide) (by decide) (by decide) (by decide) (by decide)⟩

/-- C7: a ReadInto (`ringbuffer_write_memory`) with a null destination
advances `read_offset` by the amount clamped to the fill count, writes to no
destination (the output stays `none` and the ring storage is untouched), and
the subsequent fill count reflects the advance: it drops by the clamped
amount. -/
theorem C7_null_destination (k : Nat) (rb : Ringbuffer) (amount : Nat)
    (hs : rb.size = 2 ^ k) (hr : rb.read_offset < rb.size) (hw : rb.write_offset < rb.size)
    (ha : amount ≤ rb.size) :
    ∃ rb', ringbuffer_write_memory rb none amount =
        .ok (rb', none, min amount (ringbuffer_fill_count rb)) ∧
      rb'.read_offset = (rb.read_offset + min amount (ringbuffer_fill_count rb)) % rb.size ∧
      rb'.write_offset = rb.write_offset ∧
      rb'.storage = rb.storage ∧
      ringbuffer_fill_count rb' =
        ringbuffer_fill_count rb - min amount (ringbuffer_fill_count rb) := by
  have h0 : 0 < rb.size := hs ▸ Nat.two_pow_pos k
  have hmask : ∀ x, x &&& (rb.size - 1) = x % rb.size := by
    intro x; rw [hs]; exact land_mask k x
  have hfil : ringbuffer_fill_count rb < rb.size := fill_count_lt rb hr hw
  have hfc := fill_count_cases rb
  refine ⟨_, write_memory_none_ok rb amount ha, ?_, rfl, rfl, ?_⟩
  · exact hmask _
  · have hm : min amount (ringbuffer_fill_count rb) ≤ ringbuffer_fill_count rb :=
      Nat.min_le_right _ _
    set a := min amount (ringbuffer_fill_count rb) with hadef
    rcases mod_cases2 (rb.read_offset + a) rb.size (by omega) with ⟨h1, hp⟩ | ⟨h1, hp⟩ <;>
      rw [hmask, hp]
    · have hfc2 := fill_count_cases { rb with read_offset := rb.read_offset + a }
      dsimp only at hfc2
      rcases hfc with ⟨h2, hf⟩ | ⟨h2, hf⟩ <;>
        rcases hfc2 with ⟨h3, hf2⟩ | ⟨h3, hf2⟩ <;> rw [hf2] <;> omega
    · have hfc2 := fill_count_cases { rb with read_offset := rb.read_offset + a - rb.size }
      dsimp only at hfc2
      rcases hfc with ⟨h2, hf⟩ | ⟨h2, hf⟩ <;>
        rcases hfc2 with ⟨h3, hf2⟩ | ⟨h3, hf2⟩ <;> rw [hf2] <;> omega

/-- C7 witness: capacity 4, fill 2; a null-destination read of 1 advances
`read_offset` from 1 to 2 and drops the fill count from 2 to 1. -/
theorem C7_null_destination_witness :
    ((⟨4, 1, 3, fun _ => 0⟩ : Ringbuffer).size = 2 ^ 2 ∧
     (⟨4, 1, 3, fun _ => 0⟩ : Ringbuffer).read_offset < (⟨4, 1, 3, fun _ => 0⟩ : Ringbuffer).size ∧
     (⟨4, 1, 3, fun _ => 0⟩ : Ringbuffer).write_offset < (⟨4, 1, 3, fun _ => 0⟩ : Ringbuffer).size ∧
     1 ≤ (⟨4, 1, 3, fun _ => 0⟩ : Ringbuffer).size) ∧
    ∃ rb', ringbuffer_write_memory ⟨4, 1, 3, fun _ => 0⟩ none 1 =
        .ok (rb', none, min 1 (ringbuffer_fill_count ⟨4, 1, 3, fun _ => 0⟩)) ∧
      rb'.read_offset = ((⟨4, 1, 3, fun _ => 0⟩ : Ringbuffer).read_offset +
          min 1 (ringbuffer_fill_count ⟨4, 1, 3, fun _ => 0⟩)) %
          (⟨4, 1, 3, fun _ => 0⟩ : Ringbuffer).size ∧
      rb'.write_offset = (⟨4, 1, 3, fun _ => 0⟩ : Ringbuffer).write_offset ∧
      rb'.storage = (⟨4, 1, 3, fun _ => 0⟩ : Ringbuffer).storage ∧
      ringbuffer_fill_count rb' =
        ringbuffer_fill_count ⟨4, 1, 3, fun _ => 0⟩ -
          min 1 (ringbuffer_fill_count ⟨4, 1, 3, fun _ => 0⟩) :=
  ⟨⟨by decide, by decide, by decide, by decide⟩,
    C7_null_destination 2 ⟨4, 1, 3, fun _ => 0⟩ 1
      (by decide) (by decide) (by decide) (by decide)⟩

/-- C8 (amended): for requested sizes `s` with `0 < s ≤ 2^63`,
`ringbuffer_create` yields a capacity that is a power of two, at least `s`,
and the smallest power of two that is at least `s`.  (For `s > 2^63` the
64-bit smear-and-increment overflows to 0: see the counterexample.) -/
theorem C8_create_rounding (s r w : Nat) (st : Nat → Nat) (h1 : 0 < s) (h2 : s ≤ 2 ^ 63) :
    ∃ k, (ringbuffer_create s r w st).size = 2 ^ k ∧ s ≤ 2 ^ k ∧
      ∀ j, s ≤ 2 ^ j → 2 ^ k ≤ 2 ^ j := by
  refine ⟨Nat.size (s - 1), ?_, ?_, ?_⟩
  · exact next_power_of_two_eq s h1 h2
  · have := Nat.lt_size_self (s - 1)
    omega
  · intro j hj
    exact Nat.pow_le_pow_right (by omega) (Nat.size_le.mpr (by omega))

/-- C8 witness: `Create(5)` yields capacity 8 (the smallest power of two at
least 5). -/
theorem C8_create_rounding_witness :
    ((0 : Nat) < 5 ∧ 5 ≤ 2 ^ 63) ∧
    ∃ k, (ringbuffer_create 5 0 0 (fun _ => 0)).size = 2 ^ k ∧ 5 ≤ 2 ^ k ∧
      ∀ j, 5 ≤ 2 ^ j → 2 ^ k ≤ 2 ^ j :=
  ⟨⟨by decide, by decide⟩, C8_create_rounding 5 0 0 (fun _ => 0) (by decide) (by decide)⟩

/-- C8 counterexample: at the requested size `2^63 + 1` the bit smear sets
every bit of the 64-bit word and the increment wraps to 0, so the created
capacity is 0 — not a power of two and smaller than the (positive) request. -/
theorem C8_counterexample :
    (ringbuffer_create (2 ^ 63 + 1) 0 0 (fun _ => 0)).size = 0 ∧ 0 < 2 ^ 63 + 1 := by
  exact ⟨by decide, by decide⟩

/-- C9: a flushed buffer has both offsets in `[0, capacity)`, and every
operation — Flush, ReadInto (`ringbuffer_write_memory`), WriteFrom
(`ringbuffer_read_memory`), DrainToDescriptor (`ringbuffer_write_fd`) and
FillFromDescriptor (`ringbuffer_read_fd`) — keeps them there, each update
being masked with `capacity - 1` (`ringbuffer_fill_count` and
`ringbuffer_free_count` do not modify the buffer at all, so they preserve the
range trivially). -/
theorem C9_offsets_invariant (k : Nat) (rb : Ringbuffer) (f : Nat) (dst src : Option (Nat → Nat))
    (a1 a2 a3 a4 : Nat) (io1 io2 : Nat → Int) (wb1 wb2 : Bool)
    (hs : rb.size = 2 ^ k) (h : offsets_in_range rb) :
    offsets_in_range (ringbuffer_flush rb f) ∧
    (∀ rb' o n, ringbuffer_write_memory rb dst a1 = .ok (rb', o, n) → offsets_in_range rb') ∧
    (∀ rb' n, ringbuffer_read_memory rb src a2 = .ok (rb', n) → offsets_in_range rb') ∧
    (∀ rb' n, ringbuffer_write_fd rb a3 io1 wb1 = .ok (rb', n) → offsets_in_range rb') ∧
    (∀ rb' n, ringbuffer_read_fd rb a4 io2 wb2 = .ok (rb', n) → offsets_in_range rb') := by
  obtain ⟨hr, hw⟩ := h
  have h0 : 0 < rb.size := hs ▸ Nat.two_pow_pos k
  have hmasklt : ∀ x, x &&& (rb.size - 1) < rb.size := by
    intro x; rw [hs]; exact land_mask_lt k x
  refine ⟨⟨by simpa [ringbuffer_flush] using h0, by simpa [ringbuffer_flush] using h0⟩,
    ?_, ?_, ?_, ?_⟩
  · -- ReadInto
    intro rb' o n heq
    rcases Nat.lt_or_ge rb.size a1 with hgt | hle
    · unfold ringbuffer_write_memory at heq
      rw [if_pos hgt] at heq
      cases heq
    · cases dst with
      | none =>
        rw [write_memory_none_ok rb a1 hle] at heq
        obtain ⟨h1, -, -⟩ := by simpa only [Except.ok.injEq, Prod.mk.injEq] using heq
        subst h1
        exact ⟨hmasklt _, hw⟩
      | some buffer =>
        obtain ⟨rbW, out, hE, hsz, hwo, -, hro, -⟩ :=
          write_memory_ok k rb buffer a1 hs hr hw hle
        rw [hE] at heq
        obtain ⟨h1, -, -⟩ := by simpa only [Except.ok.injEq, Prod.mk.injEq] using heq
        subst h1
        refine ⟨?_, ?_⟩
        · rw [hro, hsz]; exact Nat.mod_lt _ h0
        · rw [hwo, hsz]; exact hw
  · -- WriteFrom
    intro rb' n heq
    rcases Nat.lt_or_ge rb.size a2 with hgt | hle
    · unfold ringbuffer_read_memory at heq
      rw [if_pos hgt] at heq
      cases heq
    · cases src with
      | none =>
        unfold ringbuffer_read_memory at heq
        rw [if_neg (by omega)] at heq
        dsimp only at heq
        obtain ⟨h1, -⟩ := by simpa only [Except.ok.injEq, Prod.mk.injEq] using heq
        subst h1
        exact ⟨hr, hmasklt _⟩
      | some buffer =>
        obtain ⟨rbR, hE, hsz, hro, hwo, -, -⟩ :=
          read_memory_ok k rb buffer a2 hs hr hw hle
        rw [hE] at heq
        obtain ⟨h1, -⟩ := by simpa only [Except.ok.injEq, Prod.mk.injEq] using heq
        subst h1
        refine ⟨?_, ?_⟩
        · rw [hro, hsz]; exact hr
        · rw [hwo, hsz]; exact Nat.mod_lt _ h0
  · -- DrainToDescriptor
    intro rb' n heq
    unfold ringbuffer_write_fd at heq
    rcases Nat.lt_or_ge rb.size a3 with hgt | hle
    · rw [if_pos hgt] at heq
      cases heq
    · rw [if_neg (by omega)] at heq
      dsimp only at heq
      split at heq
      · split at heq
        · obtain ⟨h1, -⟩ := by simpa only [Except.ok.injEq, Prod.mk.injEq] using heq
          subst h1
          exact ⟨hr, hw⟩
        · cases heq
      · obtain ⟨h1, -⟩ := by simpa only [Except.ok.injEq, Prod.mk.injEq] using heq
        subst h1
        exact ⟨hmasklt _, hw⟩
  · -- FillFromDescriptor
    intro rb' n heq
    unfold ringbuffer_read_fd at heq
    rcases Nat.lt_or_ge rb.size a4 with hgt | hle
    · rw [if_pos hgt] at heq
      cases heq
    · rw [if_neg (by omega)] at heq
      dsimp only at heq
      split at heq
      · split at heq
        · obtain ⟨h1, -⟩ := by simpa only [Except.ok.injEq, Prod.mk.injEq] using heq
          subst h1
          exact ⟨hr, hw⟩
        · cases heq
      · obtain ⟨h1, -⟩ := by simpa only [Except.ok.injEq, Prod.mk.injEq] using heq
        subst h1
        exact ⟨hr, hmasklt _⟩

/-- C9 witness: capacity 4 with offsets 1 and 3; all operations instantiated
at amount 2 with a descriptor transferring 1 byte. -/
theorem C9_offsets_invariant_witness :
    ((⟨4, 1, 3, fun _ => 0⟩ : Ringbuffer).size = 2 ^ 2 ∧
     offsets_in_range ⟨4, 1, 3, fun _ => 0⟩) ∧
    (offsets_in_range (ringbuffer_flush ⟨4, 1, 3, fun _ => 0⟩ 0) ∧
     (∀ rb' o n, ringbuffer_write_memory ⟨4, 1, 3, fun _ => 0⟩ none 2 = .ok (rb', o, n) →
        offsets_in_range rb') ∧
     (∀ rb' n, ringbuffer_read_memory ⟨4, 1, 3, fun _ => 0⟩ none 2 = .ok (rb', n) →
        offsets_in_range rb') ∧
     (∀ rb' n, ringbuffer_write_fd ⟨4, 1, 3, fun _ => 0⟩ 2 (fun _ => 1) true = .ok (rb', n) →
        offsets_in_range rb') ∧
     (∀ rb' n, ringbuffer_read_fd ⟨4, 1, 3, fun _ => 0⟩ 2 (fun _ => 1) true = .ok (rb', n) →
        offsets_in_range rb')) :=
  ⟨⟨by decide, ⟨by decide, by decide⟩⟩,
    C9_offsets_invariant 2 ⟨4, 1, 3, fun _ => 0⟩ 0 none none 2 2 2 2
      (fun _ => 1) (fun _ => 1) true true (by decide) ⟨by decide, by decide⟩⟩

/-- C10: for requests within capacity, a successful ReadInto
(`ringbuffer_write_memory`) leaves `write_offset`, the capacity field and the
ring storage unchanged, and a successful WriteFrom (`ringbuffer_read_memory`)
leaves `read_offset` and the capacity field unchanged. -/
theorem C10_frame (rb : Ringbuffer) (dst src : Option (Nat → Nat)) (a1 a2 : Nat)
    (h1 : a1 ≤ rb.size) (h2 : a2 ≤ rb.size) :
    (∃ res, ringbuffer_write_memory rb dst a1 = .ok res ∧
      res.1.write_offset = rb.write_offset ∧ res.1.size = rb.size ∧
      res.1.storage = rb.storage) ∧
    (∃ res, ringbuffer_read_memory rb src a2 = .ok res ∧
      res.1.read_offset = rb.read_offset ∧ res.1.size = rb.size) := by
  constructor
  · unfold ringbuffer_write_memory
    rw [if_neg (by omega)]
    exact ⟨_, rfl, rfl, rfl, rfl⟩
  · unfold ringbuffer_read_memory
    rw [if_neg (by omega)]
    cases src with
    | none => exact ⟨_, rfl, rfl, rfl⟩
    | some buffer =>
      dsimp only
      split <;> split <;> (try split) <;> exact ⟨_, rfl, rfl, rfl⟩

/-- C10 witness: capacity 4 with offsets 1 and 3, both requests of 2 bytes. -/
theorem C10_frame_witness :
    (2 ≤ (⟨4, 1, 3, fun _ => 0⟩ : Ringbuffer).size ∧
     2 ≤ (⟨4, 1, 3, fun _ => 0⟩ : Ringbuffer).size) ∧
    ((∃ res, ringbuffer_write_memory ⟨4, 1, 3, fun _ => 0⟩ none 2 = .ok res ∧
        res.1.write_offset = (⟨4, 1, 3, fun _ => 0⟩ : Ringbuffer).write_offset ∧
        res.1.size = (⟨4, 1, 3, fun _ => 0⟩ : Ringbuffer).size ∧
        res.1.storage = (⟨4, 1, 3, fun _ => 0⟩ : Ringbuffer).storage) ∧
     (∃ res, ringbuffer_read_memory ⟨4, 1, 3, fun _ => 0⟩ none 2 = .ok res ∧
        res.1.read_offset = (⟨4, 1, 3, fun _ => 0⟩ : Ringbuffer).read_offset ∧
        res.1.size = (⟨4, 1, 3, fun _ => 0⟩ : Ringbuffer).size)) :=
  ⟨⟨by decide, by decide⟩,
    C10_frame ⟨4, 1, 3, fun _ => 0⟩ none none 2 2 (by decide) (by decide)⟩
